import Mathlib

/-!
Verification development for the streaming SSE decoding core of
`src/lib/patch-langgraph-client.ts`.

Modelling conventions (shallow embedding):
* A byte (`Uint8Array` element) is a `Nat`; a `Uint8Array` is a `List Nat`.
* JavaScript strings produced by `TextDecoder.decode` are modelled as their
  UTF-8 byte sequences (`List Nat`); all strings exercised by the claims are
  ASCII, where this representation is exact (string equality with the ASCII
  literals `"event"`, `"data"`, `"id"`, `"retry"` coincides with byte
  equality, and string truthiness coincides with list non-emptiness).
* `JSON.parse` (a platform builtin, not repository code) is modelled by a
  recursive-descent parser over the full JSON grammar; a number token is kept
  as its raw character sequence (`Json.num`), which distinguishes exactly the
  payloads the claims compare and avoids committing to float semantics.
* Stateful `TransformStream`s become explicit state records with a
  `transform` step returning the new state together with the list of values
  enqueued by that step, and a `flush` returning the values enqueued at end
  of stream.
-/

/-- Byte constants from the source (`"\r".charCodeAt(0)` etc.). -/
def CR : Nat := 13
def LF : Nat := 10
def NULL : Nat := 0
def COLON : Nat := 58
def SPACE : Nat := 32

/-- ASCII string literal as its byte sequence. -/
def strBytes (s : String) : List Nat := s.data.map (fun c => c.toNat)

/-- `joinArrays` from the source: concatenation of a list of byte arrays. -/
def joinArrays (data : List (List Nat)) : List Nat := data.flatten

/-- The JSON value domain produced by the model of `JSON.parse`.  A number
is kept as its raw token characters (no float arithmetic is ever performed
on it downstream, the decoded value is passed through opaquely). -/
inductive Json where
  | null : Json
  | bool (b : Bool) : Json
  | num (raw : List Nat) : Json
  | str (s : List Nat) : Json
  | arr (elems : List Json) : Json
  | obj (fields : List (List Nat × Json)) : Json

namespace JsonParse

def isWs (c : Nat) : Bool := c = 32 || c = 9 || c = 10 || c = 13

def skipWs (input : List Nat) : List Nat := input.dropWhile isWs

def isDigit (c : Nat) : Bool := 48 ≤ c && c ≤ 57

/-- Parse a JSON string body after the opening quote; returns the decoded
characters and the remainder after the closing quote. -/
def parseStringBody : List Nat → Option (List Nat × List Nat)
  | [] => none
  | c :: rest =>
    if c = 34 then some ([], rest)
    else if c = 92 then
      match rest with
      | [] => none
      | e :: rest2 =>
        let dec : Option Nat :=
          if e = 34 then some 34
          else if e = 92 then some 92
          else if e = 47 then some 47
          else if e = 98 then some 8
          else if e = 102 then some 12
          else if e = 110 then some 10
          else if e = 114 then some 13
          else if e = 116 then some 9
          else none
        match dec with
        | some d =>
          match parseStringBody rest2 with
          | some (s, r) => some (d :: s, r)
          | none => none
        | none =>
          -- \uXXXX escape: four hex digits become one code point
          if e = 117 then
            match rest2 with
            | h1 :: h2 :: h3 :: h4 :: rest3 =>
              let hex : Nat → Option Nat := fun h =>
                if 48 ≤ h ∧ h ≤ 57 then some (h - 48)
                else if 97 ≤ h ∧ h ≤ 102 then some (h - 87)
                else if 65 ≤ h ∧ h ≤ 70 then some (h - 55)
                else none
              match hex h1, hex h2, hex h3, hex h4 with
              | some a, some b, some c4, some d =>
                match parseStringBody rest3 with
                | some (s, r) => some ((((a * 16 + b) * 16 + c4) * 16 + d) :: s, r)
                | none => none
              | _, _, _, _ => none
            | _ => none
          else none
    else if c < 32 then none
    else
      match parseStringBody rest with
      | some (s, r) => some (c :: s, r)
      | none => none

/-- Parse the digits `[0-9]+`, returning them and the remainder. -/
def takeDigits (input : List Nat) : List Nat × List Nat :=
  (input.takeWhile isDigit, input.dropWhile isDigit)

/-- Parse a JSON number token `-? (0 | [1-9][0-9]*) (. [0-9]+)? ([eE][+-]?[0-9]+)?`,
returning its raw characters and the remainder. -/
def parseNumber (input : List Nat) : Option (List Nat × List Nat) :=
  let (sign, r1) :=
    match input with
    | c :: rest => if c = 45 then ([c], rest) else ([], input)
    | [] => ([], input)
  match r1 with
  | [] => none
  | c :: rest =>
    if c = 48 then
      -- leading zero: integer part is exactly "0"
      let intPart := ([c], rest)
      someTail sign intPart
    else if isDigit c then
      let (ds, r2) := takeDigits rest
      someTail sign (c :: ds, r2)
    else none
where
  someTail (sign : List Nat) (ip : List Nat × List Nat) :
      Option (List Nat × List Nat) :=
    let (intDs, r2) := ip
    let (fracDs, r3) :=
      match r2 with
      | c :: rest =>
        if c = 46 then
          let (ds, r) := takeDigits rest
          if ds = [] then ([], r2) else (c :: ds, r)
        else ([], r2)
      | [] => ([], r2)
    if fracDs = [] ∧ r3 ≠ r2 then none
    else
      let (expDs, r4) :=
        match r3 with
        | c :: rest =>
          if c = 101 ∨ c = 69 then
            let (sgn, r') :=
              match rest with
              | s :: rest2 => if s = 43 ∨ s = 45 then ([s], rest2) else ([], rest)
              | [] => ([], rest)
            let (ds, r'') := takeDigits r'
            if ds = [] then ([], r3) else (c :: (sgn ++ ds), r'')
          else ([], r3)
        | [] => ([], r3)
      some (sign ++ intDs ++ fracDs ++ expDs, r4)

mutual

/-- Parse one JSON value (after skipping leading whitespace). -/
def parseValue (fuel : Nat) (input : List Nat) : Option (Json × List Nat) :=
  match fuel with
  | 0 => none
  | fuel + 1 =>
    match skipWs input with
    | [] => none
    | c :: rest =>
      if c = 110 then  -- 'n' : null
        match rest with
        | 117 :: 108 :: 108 :: r => some (Json.null, r)
        | _ => none
      else if c = 116 then  -- 't' : true
        match rest with
        | 114 :: 117 :: 101 :: r => some (Json.bool true, r)
        | _ => none
      else if c = 102 then  -- 'f' : false
        match rest with
        | 97 :: 108 :: 115 :: 101 :: r => some (Json.bool false, r)
        | _ => none
      else if c = 34 then  -- '"'
        match parseStringBody rest with
        | some (s, r) => some (Json.str s, r)
        | none => none
      else if c = 91 then  -- open bracket: array
        match skipWs rest with
        | 93 :: r => some (Json.arr [], r)
        | _ =>
          match parseElems fuel rest with
          | some (es, r) => some (Json.arr es, r)
          | none => none
      else if c = 123 then  -- open brace: object
        match skipWs rest with
        | 125 :: r => some (Json.obj [], r)
        | _ =>
          match parseFields fuel rest with
          | some (fs, r) => some (Json.obj fs, r)
          | none => none
      else
        match parseNumber (c :: rest) with
        | some (raw, r) => some (Json.num raw, r)
        | none => none

/-- Parse one or more comma-separated array elements and the closing bracket. -/
def parseElems (fuel : Nat) (input : List Nat) : Option (List Json × List Nat) :=
  match fuel with
  | 0 => none
  | fuel + 1 =>
    match parseValue fuel input with
    | none => none
    | some (v, r) =>
      match skipWs r with
      | 44 :: r2 =>  -- comma
        match parseElems fuel r2 with
        | some (vs, r3) => some (v :: vs, r3)
        | none => none
      | 93 :: r2 => some ([v], r2)  -- closing bracket
      | _ => none

/-- Parse one or more comma-separated object members and the closing brace. -/
def parseFields (fuel : Nat) (input : List Nat) :
    Option (List (List Nat × Json) × List Nat) :=
  match fuel with
  | 0 => none
  | fuel + 1 =>
    match skipWs input with
    | 34 :: rest =>
      match parseStringBody rest with
      | none => none
      | some (k, r) =>
        match skipWs r with
        | 58 :: r2 =>  -- colon
          match parseValue fuel r2 with
          | none => none
          | some (v, r3) =>
            match skipWs r3 with
            | 44 :: r4 =>
              match parseFields fuel r4 with
              | some (fs, r5) => some ((k, v) :: fs, r5)
              | none => none
            | 125 :: r4 => some ([(k, v)], r4)  -- closing brace
            | _ => none
        | _ => none
    | _ => none

end

end JsonParse

/-- Model of `JSON.parse(decoder.decode(bytes))`: `none` exactly when the
parse throws. -/
def jsonParse (bytes : List Nat) : Option Json :=
  match JsonParse.parseValue (2 * bytes.length + 4) bytes with
  | some (j, rest) => if JsonParse.skipWs rest = [] then some j else none
  | none => none

/-- `decodeArraysToJson` from the source: join the byte arrays, decode,
`JSON.parse` inside `try`/`catch`; a failure yields `undefined` (`none`). -/
def decodeArraysToJson (data : List (List Nat)) : Option Json :=
  jsonParse (joinArrays data)

/-- Model of `Number.parseInt(s, 10)`: skip leading whitespace, optional
sign, then the maximal digit prefix; `NaN` (`none`) when no digit follows. -/
def parseInt10 (value : List Nat) : Option Int :=
  let v := JsonParse.skipWs value
  let (sgn, v2) : Int × List Nat :=
    match v with
    | c :: rest =>
      if c = 45 then (-1, rest)
      else if c = 43 then (1, rest) else (1, v)
    | [] => (1, v)
  let ds := v2.takeWhile JsonParse.isDigit
  if ds = [] then none
  else some (sgn * (ds.foldl (fun acc d => acc * 10 + (d - 48)) 0 : Nat))

example : jsonParse (strBytes "1") = some (Json.num (strBytes "1")) := rfl
example : jsonParse (strBytes "12") = some (Json.num (strBytes "12")) := rfl
example : jsonParse (strBytes "not-json") = none := rfl
example : jsonParse (strBytes "1\n2") = none := rfl
example : jsonParse (strBytes "[1, 2]") =
    some (Json.arr [Json.num (strBytes "1"), Json.num (strBytes "2")]) := rfl

/-!
## `BytesLineDecoder`

The transform stream that turns byte chunks into logical lines.  Its mutable
captured state is `buffer : Uint8Array[]` and `trailingCr : boolean`.  The
`buffer` array is only ever read through `joinArrays` and through the
emptiness test `buffer.length`; every time it is refilled its first element
is a non-empty byte array (the whole non-empty `text` in the single-line
branch, or a non-empty unterminated tail line), so its emptiness coincides
with the emptiness of the concatenation.  We therefore model `buffer` by the
concatenation of its elements.
-/

namespace BytesLineDecoder

structure State where
  buffer : List Nat
  trailingCr : Bool
deriving DecidableEq

/-- The scan performed by the `text.reduce` call in `transform`: split
`text` on `CR`, `LF`, or the pair `CR LF` (consumed as one terminator),
each terminator emitting the bytes accumulated since the previous one
(`cur`); at the end of the scan the unterminated remainder is emitted as a
final line exactly when it is non-empty (the reduce's
`idx === lastIdx && acc.from <= lastIdx` push). -/
def goLines : List Nat → List Nat → List (List Nat)
  | [], cur => if cur = [] then [] else [cur]
  | b :: rest, cur =>
    if b = CR then
      -- if (cur === CR && text[idx + 1] === LF) acc.from = idx + 2
      -- (`text[idx + 1]` is `undefined` past the end, never equal to LF)
      match rest with
      | c :: rest2 =>
        if c = LF then cur :: goLines rest2 []
        else cur :: goLines (c :: rest2) []
      | [] => cur :: goLines [] []
    else if b = LF then cur :: goLines rest []
    else goLines rest (cur ++ [b])
termination_by text _ => text.length
decreasing_by
  all_goals simp_wf
  all_goals omega

def splitLines (text : List Nat) : List (List Nat) := goLines text []

/-- The `buffer.push(lines[0]); lines[0] = joinArrays(buffer); buffer = []`
merge of a pending buffer into the first line of the scan, guarded by
`if (buffer.length)`. -/
def mergedLines (buffer : List Nat) (lines : List (List Nat)) :
    List (List Nat) :=
  if buffer ≠ [] then (buffer ++ lines.headD []) :: lines.tail else lines

/-- `transform` after the trailing-CR strip: `text` is the adjusted chunk,
`trailingCr` the flag recorded by the strip.  `TRAILING_NEWLINE.includes
(text.at(-1))` is `text.getLastD 0 == CR || text.getLastD 0 == LF`.
After the merge the JS `buffer` is empty, and `lines` is non-empty whenever
`text` is (`goLines_ne_nil`), so `if (lines.length) buffer = [lines.pop()!]`
always pops: the popped unterminated tail line becomes the new buffer and
the remaining lines are enqueued. -/
def transformText (buffer text : List Nat) (trailingCr : Bool) :
    State × List (List Nat) :=
  -- if (!text.length) return;
  if text = [] then (⟨buffer, trailingCr⟩, [])
  -- if (lines.length === 1 && !trailingNewline) { buffer.push(lines[0]); return; }
  else if (splitLines text).length = 1 ∧
      (text.getLastD 0 == CR || text.getLastD 0 == LF) = false then
    (⟨buffer ++ (splitLines text).headD [], trailingCr⟩, [])
  -- if (!trailingNewline) { if (lines.length) buffer = [lines.pop()!]; }
  else if (text.getLastD 0 == CR || text.getLastD 0 == LF) = false then
    (⟨(mergedLines buffer (splitLines text)).getLastD [], trailingCr⟩,
      (mergedLines buffer (splitLines text)).dropLast)
  -- for (const line of lines) controller.enqueue(line);
  else
    (⟨[], trailingCr⟩, mergedLines buffer (splitLines text))

/-- Body of `transform` after the pending-CR prepend: `text0` is the chunk
with a leading `CR` already prepended when the previous chunk ended in a
bare `CR`.  `if (text.length > 0 && text.at(-1) === CR)` strips the final
`CR` and records it in the flag (`getLastD 0` is never `CR` for the empty
array). -/
def transformCore (buffer : List Nat) (text0 : List Nat) :
    State × List (List Nat) :=
  if text0.getLastD 0 == CR then transformText buffer text0.dropLast true
  else transformText buffer text0 false

/-- `transform(chunk, controller)`: prepend the pending `CR` when the
previous chunk ended in a bare carriage return, then run the scan. -/
def transform (s : State) (chunk : List Nat) : State × List (List Nat) :=
  transformCore s.buffer (if s.trailingCr then CR :: chunk else chunk)

/-- `flush(controller)`: emit the pending buffer when non-empty. -/
def flush (s : State) : List (List Nat) :=
  if s.buffer ≠ [] then [s.buffer] else []

def initState : State := ⟨[], false⟩

/-- Feed a list of chunks one by one, collecting everything enqueued. -/
def run : State → List (List Nat) → State × List (List Nat)
  | s, [] => (s, [])
  | s, c :: cs =>
    ((run (transform s c).1 cs).1,
      (transform s c).2 ++ (run (transform s c).1 cs).2)

/-- Feed the chunks, then `flush`: the complete sequence of LogicalLines
the decoder emits for the chunked stream. -/
def decodeChunks (chunks : List (List Nat)) : List (List Nat) :=
  let (s, out) := run initState chunks
  out ++ flush s

/-!
### A per-byte reference machine

`stepByte` is a chunking-free description of the same line protocol: a bare
`CR` defers (it may pair with a following `LF`); the byte after a pending
`CR` terminates the pending line.  The decoder's chunk transform is proved
equal to folding `stepByte` over the chunk's bytes, which makes the output
independent of chunk boundaries.
-/

def stepByte : State → Nat → State × List (List Nat)
  | ⟨p, true⟩, b =>
    if b = LF then (⟨[], false⟩, [p])
    else if b = CR then (⟨[], true⟩, [p])
    else (⟨[b], false⟩, [p])
  | ⟨p, false⟩, b =>
    if b = LF then (⟨[], false⟩, [p])
    else if b = CR then (⟨p, true⟩, [])
    else (⟨p ++ [b], false⟩, [])

def runBytes : State → List Nat → State × List (List Nat)
  | s, [] => (s, [])
  | s, b :: rest =>
    ((runBytes (stepByte s b).1 rest).1,
      (stepByte s b).2 ++ (runBytes (stepByte s b).1 rest).2)

/-!
### Equivalence of the chunk transform with the per-byte machine
-/

theorem goLines_nil (cur : List Nat) :
    goLines [] cur = if cur = [] then [] else [cur] := by
  rw [goLines.eq_def]

theorem goLines_crlf (rest2 cur : List Nat) :
    goLines (CR :: LF :: rest2) cur = cur :: goLines rest2 [] := by
  rw [goLines.eq_def]; simp

theorem goLines_cr_not_lf (c : Nat) (rest2 cur : List Nat) (hc : ¬c = LF) :
    goLines (CR :: c :: rest2) cur = cur :: goLines (c :: rest2) [] := by
  rw [goLines.eq_def]; simp [hc]

theorem goLines_cr_single (cur : List Nat) : goLines [CR] cur = [cur] := by
  rw [goLines.eq_def]; simp [goLines_nil]

theorem goLines_lf (rest cur : List Nat) :
    goLines (LF :: rest) cur = cur :: goLines rest [] := by
  rw [goLines.eq_def]; simp [CR, LF]

theorem goLines_other (b : Nat) (rest cur : List Nat) (hb : ¬b = CR)
    (hlf : ¬b = LF) : goLines (b :: rest) cur = goLines rest (cur ++ [b]) := by
  rw [goLines.eq_def]; simp [hb, hlf]

theorem getLastD_default_irrel {α : Type} (L : List α) (h : L ≠ [])
    (d1 d2 : α) : L.getLastD d1 = L.getLastD d2 := by
  cases L with
  | nil => exact absurd rfl h
  | cons x M =>
    rw [List.getLastD_eq_getLast?, List.getLastD_eq_getLast?,
      List.getLast?_eq_getLast (x :: M) (List.cons_ne_nil x M)]
    rfl

theorem getLastD_cons_of_ne_nil {α : Type} (x : α) (L : List α) (d : α)
    (h : L ≠ []) : (x :: L).getLastD d = L.getLastD d := by
  rw [List.getLastD_cons]
  exact getLastD_default_irrel L h x d

theorem dropLast_append_getLastD {α : Type} :
    ∀ (L : List α), L ≠ [] → ∀ (d : α), L.dropLast ++ [L.getLastD d] = L := by
  intro L
  induction L with
  | nil => intro h; exact absurd rfl h
  | cons x L ih =>
    intro _ d
    cases L with
    | nil => rfl
    | cons y M =>
      rw [List.dropLast_cons₂, getLastD_cons_of_ne_nil x _ d (List.cons_ne_nil y M),
        List.cons_append, ih (List.cons_ne_nil y M) d]

theorem goLines_ne_nil : ∀ (text cur : List Nat), text ≠ [] →
    goLines text cur ≠ [] := by
  intro text cur
  induction text, cur using goLines.induct with
  | case1 => intro h; exact absurd rfl h
  | case2 cur hcur => intro h; exact absurd rfl h
  | case3 cur rest2 ih => intro _; simp [goLines_crlf]
  | case4 cur c rest2 hc ih => intro _; simp [goLines_cr_not_lf c rest2 cur hc]
  | case5 cur ih => intro _; simp [goLines_cr_single]
  | case6 rest cur hne ih => intro _; simp [goLines_lf]
  | case7 b rest cur hb hlf ih =>
    intro _
    rw [goLines_other b rest cur hb hlf]
    by_cases hr : rest = []
    · subst hr; simp [goLines_nil]
    · exact ih hr

theorem goLines_prepend : ∀ (text cur : List Nat), text ≠ [] →
    ∀ (a : List Nat),
    goLines text (a ++ cur) =
      (a ++ (goLines text cur).headD []) :: (goLines text cur).tail := by
  intro text cur
  induction text, cur using goLines.induct with
  | case1 => intro h; exact absurd rfl h
  | case2 cur hcur => intro h; exact absurd rfl h
  | case3 cur rest2 ih => intro _ a; simp [goLines_crlf]
  | case4 cur c rest2 hc ih =>
    intro _ a
    simp [goLines_cr_not_lf c rest2 _ hc]
  | case5 cur ih => intro _ a; simp [goLines_cr_single]
  | case6 rest cur hne ih => intro _ a; simp [goLines_lf]
  | case7 b rest cur hb hlf ih =>
    intro _ a
    rw [goLines_other b rest _ hb hlf, goLines_other b rest _ hb hlf]
    by_cases hr : rest = []
    · subst hr; simp [goLines_nil, List.append_assoc]
    · have h1 := ih hr a
      rw [List.append_assoc]
      exact h1

theorem dropLast_cons_of_ne_nil {α : Type} (x : α) (L : List α) (h : L ≠ []) :
    (x :: L).dropLast = x :: L.dropLast := by
  cases L with
  | nil => exact absurd rfl h
  | cons y M => exact List.dropLast_cons₂

theorem CR_ne_LF : ¬(CR = LF) := by decide

theorem LF_ne_CR : ¬(LF = CR) := by decide

theorem runBytes_append : ∀ (a : List Nat) (s : State) (b : List Nat),
    runBytes s (a ++ b) =
      ((runBytes (runBytes s a).1 b).1,
        (runBytes s a).2 ++ (runBytes (runBytes s a).1 b).2) := by
  intro a
  induction a with
  | nil => intro s b; simp [runBytes]
  | cons x xs ih => intro s b; simp [runBytes, ih, List.append_assoc]

theorem runBytes_trailingCr (p : List Nat) (chunk : List Nat) :
    runBytes ⟨p, true⟩ chunk = runBytes ⟨p, false⟩ (CR :: chunk) := by
  simp [runBytes, stepByte, CR_ne_LF]

/-- After a pending bare `CR`, the next byte (when it is not `LF`)
terminates the pending line and the machine continues exactly as the clean
machine would on the same input. -/
theorem runBytes_true_notLF (c : Nat) (rest : List Nat) (hc : ¬c = LF)
    (p : List Nat) :
    runBytes ⟨p, true⟩ (c :: rest) =
      ((runBytes ⟨[], false⟩ (c :: rest)).1,
        p :: (runBytes ⟨[], false⟩ (c :: rest)).2) := by
  by_cases hcr : c = CR
  · subst hcr; simp [runBytes, stepByte, CR_ne_LF]
  · simp [runBytes, stepByte, hc, hcr]

/-- Running the per-byte machine from a clean pending state over a
non-empty `text` produces exactly the lines of the `transform` scan: all of
them when `text` ends in `LF`; all but the unterminated (or
`CR`-terminated) last one otherwise, which stays pending. -/
theorem runBytes_go : ∀ (text cur : List Nat), text ≠ [] →
    runBytes ⟨cur, false⟩ text =
      if text.getLastD 0 = LF then (⟨[], false⟩, goLines text cur)
      else (⟨(goLines text cur).getLastD [], text.getLastD 0 == CR⟩,
        (goLines text cur).dropLast) := by
  intro text cur
  induction text, cur using goLines.induct with
  | case1 => intro h; exact absurd rfl h
  | case2 cur hcur => intro h; exact absurd rfl h
  | case3 cur rest2 ih =>
    intro _
    have hL : runBytes ⟨cur, false⟩ (CR :: LF :: rest2) =
        ((runBytes ⟨[], false⟩ rest2).1,
          cur :: (runBytes ⟨[], false⟩ rest2).2) := by
      simp [runBytes, stepByte, CR_ne_LF]
    by_cases hr : rest2 = []
    · subst hr
      simp [hL, runBytes, stepByte, CR_ne_LF, goLines_crlf, goLines_nil,
        List.getLastD_cons]
    · have h1 := ih hr
      have hlast : (CR :: LF :: rest2).getLastD 0 = rest2.getLastD 0 := by
        rw [getLastD_cons_of_ne_nil CR _ 0 (List.cons_ne_nil LF rest2),
          getLastD_cons_of_ne_nil LF _ 0 hr]
      have hG := goLines_ne_nil rest2 [] hr
      rw [hL, h1, goLines_crlf, hlast]
      by_cases hLF : rest2.getLastD 0 = LF
      · rw [if_pos hLF, if_pos hLF]
      · rw [if_neg hLF, if_neg hLF,
          getLastD_cons_of_ne_nil cur _ [] hG,
          dropLast_cons_of_ne_nil cur _ hG]
  | case4 cur c rest2 hc ih =>
    intro _
    have h1 := ih (List.cons_ne_nil c rest2)
    have hstep : runBytes ⟨cur, false⟩ (CR :: c :: rest2) =
        runBytes ⟨cur, true⟩ (c :: rest2) := by
      simp [runBytes, stepByte, CR_ne_LF]
    have hlast : (CR :: c :: rest2).getLastD 0 = (c :: rest2).getLastD 0 :=
      getLastD_cons_of_ne_nil CR _ 0 (List.cons_ne_nil c rest2)
    have hG := goLines_ne_nil (c :: rest2) [] (List.cons_ne_nil c rest2)
    rw [hstep, runBytes_true_notLF c rest2 hc cur, h1,
      goLines_cr_not_lf c rest2 cur hc, hlast]
    by_cases hLF : (c :: rest2).getLastD 0 = LF
    · rw [if_pos hLF, if_pos hLF]
    · rw [if_neg hLF, if_neg hLF,
        getLastD_cons_of_ne_nil cur _ [] hG,
        dropLast_cons_of_ne_nil cur _ hG]
  | case5 cur ih =>
    intro _
    simp [runBytes, stepByte, CR_ne_LF, goLines_cr_single, List.getLastD_cons]
  | case6 rest cur hne ih =>
    intro _
    have hL : runBytes ⟨cur, false⟩ (LF :: rest) =
        ((runBytes ⟨[], false⟩ rest).1,
          cur :: (runBytes ⟨[], false⟩ rest).2) := by
      simp [runBytes, stepByte]
    by_cases hr : rest = []
    · subst hr
      simp [hL, runBytes, stepByte, goLines_lf, goLines_nil,
        List.getLastD_cons]
    · have h1 := ih hr
      have hlast : (LF :: rest).getLastD 0 = rest.getLastD 0 :=
        getLastD_cons_of_ne_nil LF _ 0 hr
      have hG := goLines_ne_nil rest [] hr
      rw [hL, h1, goLines_lf, hlast]
      by_cases hLF : rest.getLastD 0 = LF
      · rw [if_pos hLF, if_pos hLF]
      · rw [if_neg hLF, if_neg hLF,
          getLastD_cons_of_ne_nil cur _ [] hG,
          dropLast_cons_of_ne_nil cur _ hG]
  | case7 b rest cur hb hlf ih =>
    intro _
    by_cases hr : rest = []
    · subst hr
      simp [runBytes, stepByte, hb, hlf, goLines_other, goLines_nil,
        List.getLastD_cons]
    · have h1 := ih hr
      have hL : runBytes ⟨cur, false⟩ (b :: rest) =
          runBytes ⟨cur ++ [b], false⟩ rest := by
        simp [runBytes, stepByte, hb, hlf]
      have hlast : (b :: rest).getLastD 0 = rest.getLastD 0 :=
        getLastD_cons_of_ne_nil b rest 0 hr
      rw [hL, h1, hlast, goLines_other b rest cur hb hlf]

/-- Merging the pending buffer into the first scan line is the same as
scanning with the pending bytes as the initial accumulator. -/
theorem mergedLines_goLines (buffer text : List Nat) (h : text ≠ []) :
    mergedLines buffer (splitLines text) = goLines text buffer := by
  unfold mergedLines splitLines
  by_cases hb : buffer = []
  · simp [hb]
  · rw [if_pos hb]
    have hp := goLines_prepend text [] h buffer
    rw [List.append_nil] at hp
    exact hp.symm

/-- When the scan produced exactly one line, that line carries the whole
text and the merge prepends the pending buffer to it. -/
theorem goLines_single (buffer text : List Nat) (h0 : text ≠ [])
    (hlen : (splitLines text).length = 1) :
    goLines text buffer = [buffer ++ (splitLines text).headD []] := by
  have hsp : ∃ l0, splitLines text = [l0] := by
    rcases hsp' : splitLines text with _ | ⟨l0, ls⟩
    · exact absurd hsp' (goLines_ne_nil text [] h0)
    · rcases ls with _ | ⟨l1, ls'⟩
      · exact ⟨l0, by simp [hsp']⟩
      · rw [hsp'] at hlen
        simp [List.length_cons] at hlen
  obtain ⟨l0, hsp⟩ := hsp
  rw [← mergedLines_goLines buffer text h0, mergedLines, hsp]
  by_cases hb : buffer = [] <;> simp [hb]

theorem transformText_eq_of_not_cr (buffer text : List Nat)
    (hcr : ¬text.getLastD 0 = CR) :
    transformText buffer text false = runBytes ⟨buffer, false⟩ text := by
  by_cases h0 : text = []
  · subst h0; simp [transformText, runBytes]
  · rw [runBytes_go text buffer h0]
    have hcr' : ¬text.getLast?.getD 0 = CR := by
      rw [← List.getLastD_eq_getLast?]; exact hcr
    by_cases hLF : text.getLastD 0 = LF
    · -- trailingNewline is true: dispatch all merged lines, empty buffer
      rw [if_pos hLF]
      have hLF' : text.getLast?.getD 0 = LF := by
        rw [← List.getLastD_eq_getLast?]; exact hLF
      simp [transformText, h0, hLF', mergedLines_goLines buffer text h0,
        LF_ne_CR]
    · -- trailingNewline is false: last merged line becomes the new buffer
      rw [if_neg hLF]
      have hLF' : ¬text.getLast?.getD 0 = LF := by
        rw [← List.getLastD_eq_getLast?]; exact hLF
      by_cases hlen : (splitLines text).length = 1
      · -- single unterminated line: the whole text is buffered
        simp [transformText, h0, hcr', hLF', hlen,
          goLines_single buffer text h0 hlen]
      · simp [transformText, h0, hcr', hLF', hlen,
          mergedLines_goLines buffer text h0]

/-- When a trailing `CR` was stripped into the flag, the transform body on
the stripped text equals the per-byte machine on the text with the `CR`
restored. -/
theorem transformText_eq_of_cr (buffer text : List Nat) :
    transformText buffer text true = runBytes ⟨buffer, false⟩ (text ++ [CR]) := by
  rw [runBytes_append text ⟨buffer, false⟩ [CR]]
  by_cases h0 : text = []
  · subst h0; simp [transformText, runBytes, stepByte, CR_ne_LF]
  · rw [runBytes_go text buffer h0]
    have hG' : goLines text buffer ≠ [] := goLines_ne_nil text buffer h0
    by_cases hLF : text.getLastD 0 = LF
    · rw [if_pos hLF]
      have hLF' : text.getLast?.getD 0 = LF := by
        rw [← List.getLastD_eq_getLast?]; exact hLF
      simp [transformText, h0, hLF', mergedLines_goLines buffer text h0,
        LF_ne_CR, runBytes, stepByte, CR_ne_LF]
    · rw [if_neg hLF]
      have hLF' : ¬text.getLast?.getD 0 = LF := by
        rw [← List.getLastD_eq_getLast?]; exact hLF
      by_cases hcr : text.getLastD 0 = CR
      · -- stripped text itself ends in `CR`: the per-byte machine emits the
        -- pending line at the restored `CR`, recovering the full line list
        have hcr' : text.getLast?.getD 0 = CR := by
          rw [← List.getLastD_eq_getLast?]; exact hcr
        have hbeq : (text.getLast?.getD 0 == CR) = true := by
          simp [hcr']
        have hback : (goLines text buffer).dropLast ++
            [(goLines text buffer).getLast?.getD []] = goLines text buffer := by
          rw [← List.getLastD_eq_getLast?]
          exact dropLast_append_getLastD _ hG' []
        simp [transformText, h0, hcr', hbeq, mergedLines_goLines buffer text h0,
          runBytes, stepByte, CR_ne_LF, hback]
      · have hcr' : ¬text.getLast?.getD 0 = CR := by
          rw [← List.getLastD_eq_getLast?]; exact hcr
        have hbeq : (text.getLast?.getD 0 == CR) = false := by
          simp [hcr']
        by_cases hlen : (splitLines text).length = 1
        · simp [transformText, h0, hcr', hLF', hlen, hbeq,
            goLines_single buffer text h0 hlen,
            runBytes, stepByte, CR_ne_LF]
        · simp [transformText, h0, hcr', hLF', hlen, hbeq,
            mergedLines_goLines buffer text h0, runBytes, stepByte, CR_ne_LF]

/-- The chunk transform equals folding the per-byte machine over the
chunk's bytes (with the pending `CR` restored in front). -/
theorem transformCore_eq (buffer text0 : List Nat) :
    transformCore buffer text0 = runBytes ⟨buffer, false⟩ text0 := by
  unfold transformCore
  by_cases hcr : text0.getLastD 0 = CR
  · have h0 : text0 ≠ [] := by
      intro h; rw [h] at hcr; exact absurd hcr (by decide)
    rw [if_pos (by simpa [List.getLastD_eq_getLast?] using hcr),
      transformText_eq_of_cr buffer text0.dropLast,
      ← hcr, dropLast_append_getLastD text0 h0 0]
  · rw [if_neg (by simpa [List.getLastD_eq_getLast?] using hcr),
      transformText_eq_of_not_cr buffer text0 hcr]

/-- One `transform` call equals running the per-byte machine over the
chunk from the same state. -/
theorem transform_eq (s : State) (chunk : List Nat) :
    transform s chunk = runBytes s chunk := by
  rcases s with ⟨p, cr⟩
  cases cr with
  | false => exact transformCore_eq p chunk
  | true =>
    have hdef : transform ⟨p, true⟩ chunk = transformCore p (CR :: chunk) := rfl
    rw [hdef, transformCore_eq p (CR :: chunk), ← runBytes_trailingCr p chunk]

/-- Feeding any chunk list is running the per-byte machine over the
concatenated bytes. -/
theorem run_flatten : ∀ (chunks : List (List Nat)) (s : State),
    run s chunks = runBytes s chunks.flatten := by
  intro chunks
  induction chunks with
  | nil => intro s; simp [run, runBytes]
  | cons c cs ih =>
    intro s
    simp [run, transform_eq, ih, List.flatten_cons,
      runBytes_append c s cs.flatten]

end BytesLineDecoder

/-!
## `SafeSSEDecoder`

The transform stream that turns LogicalLines into decoded SSE events.  Its
captured state is `event` (string), `data` (array of byte arrays),
`lastEventId` (string) and `retry` (number or null); strings are modelled
as byte sequences (see the header comment).
-/

/-- The decoded event record `{ id, event, data }`; `id` is
`lastEventId || undefined`. -/
structure SSEEvent where
  id : Option (List Nat)
  event : List Nat
  data : Json

namespace SafeSSEDecoder

structure State where
  event : List Nat
  data : List (List Nat)
  lastEventId : List Nat
  retry : Option Int

def initState : State := ⟨[], [], [], none⟩

/-- `chunk.indexOf(COLON)`: split the line at the first colon; `none` when
the line has no colon (`sepIdx === -1`). -/
def splitFirstColon : List Nat → Option (List Nat × List Nat)
  | [] => none
  | b :: rest =>
    if b = COLON then some ([], rest)
    else
      match splitFirstColon rest with
      | some (f, v) => some (b :: f, v)
      | none => none

/-- The event construction shared by the blank-line dispatch and `flush`:
`jsonData = data.length ? decodeArraysToJson(decoder, data) : null`; the
event `{ id: lastEventId || undefined, event, data: jsonData }` is enqueued
only when `jsonData !== undefined` (the JSON parse did not fail). -/
def dispatchEvent (s : State) : List SSEEvent :=
  match (if s.data ≠ [] then decodeArraysToJson s.data else some Json.null) with
  | some j =>
    [⟨if s.lastEventId = [] then none else some s.lastEventId, s.event, j⟩]
  | none => []

/-- `transform(chunk, controller)` of `SafeSSEDecoder`, one LogicalLine in,
at most one event out. -/
def transform (s : State) (chunk : List Nat) : State × List SSEEvent :=
  if chunk = [] then
    -- if (!event && !data.length && !lastEventId && retry == null) return;
    if s.event = [] ∧ s.data = [] ∧ s.lastEventId = [] ∧ s.retry = none then
      (s, [])
    else
      ({ event := [], data := [], lastEventId := s.lastEventId, retry := none },
        dispatchEvent s)
  -- if (chunk[0] === COLON) return;
  else if chunk.headD 0 = COLON then (s, [])
  else
    match splitFirstColon chunk with
    | none => (s, [])
    | some (fieldName, value0) =>
      -- let value = chunk.subarray(sepIdx + 1);
      -- if (value[0] === SPACE) value = value.subarray(1);
      let value := if value0.headD 0 = SPACE then value0.tail else value0
      if fieldName = strBytes "event" then ({ s with event := value }, [])
      else if fieldName = strBytes "data" then
        ({ s with data := s.data ++ [value] }, [])
      else if fieldName = strBytes "id" then
        -- if (value.indexOf(NULL) === -1) lastEventId = decoder.decode(value);
        (if NULL ∈ value then s else { s with lastEventId := value }, [])
      else if fieldName = strBytes "retry" then
        (match parseInt10 value with
          | some n => { s with retry := some n }
          | none => s, [])
      else (s, [])

/-- `flush(controller)`: synthesize a final event when an event type is
set. -/
def flush (s : State) : List SSEEvent :=
  if s.event ≠ [] then dispatchEvent s else []

/-- Feed lines one by one, collecting all enqueued events. -/
def run : State → List (List Nat) → State × List SSEEvent
  | s, [] => (s, [])
  | s, l :: ls =>
    ((run (transform s l).1 ls).1,
      (transform s l).2 ++ (run (transform s l).1 ls).2)

/-- Feed the lines, then `flush`. -/
def decodeLines (lines : List (List Nat)) : List SSEEvent :=
  (run initState lines).2 ++ flush (run initState lines).1

end SafeSSEDecoder

/-- The decoding pipeline of the patched `stream`: the response body chunks
through `BytesLineDecoder` then `SafeSSEDecoder` (each stage flushed at end
of stream, in order). -/
def pipelineEvents (chunks : List (List Nat)) : List SSEEvent :=
  SafeSSEDecoder.decodeLines (BytesLineDecoder.decodeChunks chunks)

/-!
## Run metadata extraction and the patched `stream` driver

`REGEX_RUN_METADATA = /(\/threads\/(?<thread_id>.+))?\/runs\/(?<run_id>.+)/`
is modelled by a specialised matcher with JavaScript regex semantics for
this pattern: `exec` finds the leftmost starting position with a match; at a
position the optional group is preferred (greedy `?`); `(?<thread_id>.+)` is
greedy, backtracking only as far as needed for `\/runs\/` plus a non-empty
`run_id`, which then takes the whole remainder.  Header values are strings
(`List Char` here).
-/

/-- String literal as a character list (response header values). -/
def strChars (s : String) : List Char := s.data

def listStartsWith : List Char → List Char → Bool
  | [], _ => true
  | _ :: _, [] => false
  | p :: ps, c :: cs => if p = c then listStartsWith ps cs else false

/-- All splittings `r = a ++ pat ++ b`, in order of increasing `a`. -/
def splitsOnGo (pat : List Char) : List Char → List Char →
    List (List Char × List Char)
  | acc, r =>
    (if listStartsWith pat r then [(acc.reverse, r.drop pat.length)] else []) ++
      (match r with
       | [] => []
       | c :: r2 => splitsOnGo pat (c :: acc) r2)

def splitsOn (pat r : List Char) : List (List Char × List Char) :=
  splitsOnGo pat [] r

/-- The alternative where the optional `(\/threads\/(?<thread_id>.+))?`
group participates: greedy `thread_id` = the longest `a` with
`rest = a ++ "/runs/" ++ b`, `a` and `b` non-empty; `run_id` = that `b`. -/
def tryWithThreads (t : List Char) :
    Option (List Char × Option (List Char)) :=
  if listStartsWith (strChars "/threads/") t then
    match ((splitsOn (strChars "/runs/") (t.drop 9)).filter
        (fun p => decide (p.1 ≠ []) && decide (p.2 ≠ []))).getLast? with
    | some (a, b) => some (b, some a)
    | none => none
  else none

/-- The alternative without the optional group: `\/runs\/` at the current
position, `run_id` = the non-empty remainder. -/
def tryRuns (t : List Char) : Option (List Char × Option (List Char)) :=
  if listStartsWith (strChars "/runs/") t ∧ t.drop 6 ≠ [] then
    some (t.drop 6, none)
  else none

def matchAt (t : List Char) : Option (List Char × Option (List Char)) :=
  match tryWithThreads t with
  | some m => some m
  | none => tryRuns t

/-- `REGEX_RUN_METADATA.exec(contentLocation)`: the `(run_id, thread_id)`
groups of the leftmost match, `none` when nothing matches. -/
def execRunMetadata : List Char → Option (List Char × Option (List Char))
  | [] => matchAt []
  | c :: s2 =>
    match matchAt (c :: s2) with
    | some m => some m
    | none => execRunMetadata s2

structure RunMetadata where
  run_id : List Char
  thread_id : Option (List Char)

/-- `getRunMetadataFromResponse`, taking the response's `Content-Location`
header value (`none` models a missing header; an empty string is falsy). -/
def getRunMetadataFromResponse (contentLocation : Option (List Char)) :
    Option RunMetadata :=
  match contentLocation with
  | none => none
  | some cl =>
    if cl = [] then none
    else
      match execRunMetadata cl with
      | none => none
      | some (rid, tid) =>
        -- if (!match?.groups?.run_id) return undefined;
        if rid = [] then none
        else
          some ⟨rid,
            -- thread_id: match.groups.thread_id || undefined
            match tid with
            | some t => if t = [] then none else some t
            | none => none⟩

/-- One observable step of the patched `stream` generator. -/
inductive StreamItem where
  | runCreated (m : RunMetadata)
  | event (e : SSEEvent)

/-- Model of the patched `runs.stream` generator body in `patchClient`
after the response arrives: `getRunMetadataFromResponse(response)` is
consulted once and, when it yields metadata, `payload.onRunCreated` is
invoked exactly once before any body byte is decoded; then the body chunks
flow through `BytesLineDecoder` and `SafeSSEDecoder` and every decoded
event is yielded in arrival order (a missing body behaves as an empty
chunk list). -/
def streamTrace (contentLocation : Option (List Char))
    (bodyChunks : List (List Nat)) : List StreamItem :=
  (match getRunMetadataFromResponse contentLocation with
   | some m => [StreamItem.runCreated m]
   | none => []) ++ (pipelineEvents bodyChunks).map StreamItem.event

namespace SafeSSEDecoder

/-- Feeding a `data:` field line appends the value (after the single
leading-space strip) to the data accumulator. -/
theorem transform_data (s : State) (v : List Nat) :
    transform s (strBytes "data: " ++ v) =
      ({ s with data := s.data ++ [v] }, []) := rfl

/-- Feeding an `event:` field line overwrites the event type. -/
theorem transform_event (s : State) (v : List Nat) :
    transform s (strBytes "event: " ++ v) = ({ s with event := v }, []) := rfl

/-- Feeding an `id:` field line updates `lastEventId` exactly when the raw
value has no embedded NUL byte. -/
theorem transform_id (s : State) (v : List Nat) :
    transform s (strBytes "id: " ++ v) =
      (if NULL ∈ v then s else { s with lastEventId := v }, []) := rfl

end SafeSSEDecoder

/-!
## Claims
-/

/-- C1: for every byte sequence and every way of splitting it into chunks
(including splits that separate a `\r` from its following `\n`), feeding
the chunks one by one into `BytesLineDecoder` and then flushing emits
exactly the same LogicalLines, in the same order, as feeding the whole
sequence as a single chunk and then flushing. -/
theorem c1_chunking_invariance (chunks : List (List Nat)) :
    BytesLineDecoder.decodeChunks chunks =
      BytesLineDecoder.decodeChunks [chunks.flatten] := by
  simp [BytesLineDecoder.decodeChunks, BytesLineDecoder.run_flatten,
    BytesLineDecoder.run, BytesLineDecoder.transform_eq]

/-- C9 counterexample: a chunk consisting of exactly the terminator `\r`
produces no LogicalLine at all — the pending-CR flag is recorded but the
empty line it terminates is never emitted, not even by `flush`. -/
theorem c9_counterexample :
    BytesLineDecoder.decodeChunks [[CR]] = [] ∧
      ([] : List (List Nat)) ≠ [[]] := by
  exact ⟨rfl, by decide⟩

/-- C9 amended: a chunk that is exactly `\n` or `\r\n` produces exactly one
empty LogicalLine; a chunk that is exactly `\r` produces nothing (the
pending carriage return is dropped at flush); an empty chunk produces
nothing and leaves the state unchanged. -/
theorem c9_amended :
    BytesLineDecoder.decodeChunks [[LF]] = [[]] ∧
    BytesLineDecoder.decodeChunks [[CR, LF]] = [[]] ∧
    BytesLineDecoder.decodeChunks [[CR]] = [] ∧
    ∀ s : BytesLineDecoder.State, BytesLineDecoder.transform s [] = (s, []) := by
  refine ⟨?_, ?_, rfl, ?_⟩
  · rw [show BytesLineDecoder.decodeChunks [[LF]] =
      (BytesLineDecoder.transform BytesLineDecoder.initState [LF]).2 ++
        BytesLineDecoder.flush
          (BytesLineDecoder.transform BytesLineDecoder.initState [LF]).1 from by
        simp [BytesLineDecoder.decodeChunks, BytesLineDecoder.run],
      BytesLineDecoder.transform_eq]
    rfl
  · rw [show BytesLineDecoder.decodeChunks [[CR, LF]] =
      (BytesLineDecoder.transform BytesLineDecoder.initState [CR, LF]).2 ++
        BytesLineDecoder.flush
          (BytesLineDecoder.transform BytesLineDecoder.initState [CR, LF]).1 from by
        simp [BytesLineDecoder.decodeChunks, BytesLineDecoder.run],
      BytesLineDecoder.transform_eq]
    rfl
  · intro s
    rcases s with ⟨p, cr⟩
    cases cr <;> rfl

/-- C2 counterexample: after a single `data: 1` line the accumulated
`event` field is empty, yet the blank-line dispatch emits an event — the
guard only suppresses the dispatch when the whole accumulator is in its
initial state. -/
theorem c2_counterexample :
    (SafeSSEDecoder.transform SafeSSEDecoder.initState
      (strBytes "data: 1")).1.event = [] ∧
    (SafeSSEDecoder.transform
      (SafeSSEDecoder.transform SafeSSEDecoder.initState
        (strBytes "data: 1")).1 []).2 =
      [⟨none, [], Json.num (strBytes "1")⟩] ∧
    [(⟨none, [], Json.num (strBytes "1")⟩ : SSEEvent)] ≠ [] := by
  exact ⟨rfl, rfl, List.cons_ne_nil _ _⟩

/-- C2 amended: a blank-line dispatch emits an event iff the accumulator is
not entirely in its initial state (`event`, `data`, `lastEventId` all
empty and `retry` unset) and the accumulated data, when present, parses as
JSON; in particular an accumulator with only `data`, `lastEventId` or
`retry` set does surface an event whose `event` field is empty. -/
theorem c2_amended (s : SafeSSEDecoder.State) :
    (SafeSSEDecoder.transform s []).2 ≠ [] ↔
      (¬(s.event = [] ∧ s.data = [] ∧ s.lastEventId = [] ∧ s.retry = none) ∧
        (s.data = [] ∨ jsonParse (List.flatten s.data) ≠ none)) := by
  by_cases hg : s.event = [] ∧ s.data = [] ∧ s.lastEventId = [] ∧ s.retry = none
  · simp [SafeSSEDecoder.transform, hg]
  · by_cases hd : s.data = []
    · have hg3 : ¬(s.event = [] ∧ s.lastEventId = [] ∧ s.retry = none) :=
        fun h => hg ⟨h.1, hd, h.2.1, h.2.2⟩
      simp [SafeSSEDecoder.transform, SafeSSEDecoder.dispatchEvent, hd, hg3]
    · rcases hj : jsonParse (List.flatten s.data) with _ | j
      · simp [SafeSSEDecoder.transform, SafeSSEDecoder.dispatchEvent, hg, hd,
          decodeArraysToJson, joinArrays, hj]
      · simp [SafeSSEDecoder.transform, SafeSSEDecoder.dispatchEvent, hg, hd,
          decodeArraysToJson, joinArrays, hj]

/-- C3 counterexample: after `data: 1` and `data: 2`, the accumulator holds
the two values and the payload handed to the JSON parser is their direct
concatenation `12` — no line separator is inserted (the separator-joined
payload `1` LF `2` would not even parse, so the dispatched event would not
exist), and the dispatched event carries the JSON number `12`. -/
theorem c3_counterexample :
    (SafeSSEDecoder.run SafeSSEDecoder.initState
      [strBytes "data: 1", strBytes "data: 2"]).1.data =
        [strBytes "1", strBytes "2"] ∧
    joinArrays [strBytes "1", strBytes "2"] = strBytes "12" ∧
    strBytes "12" ≠ strBytes "1\n2" ∧
    jsonParse (strBytes "1\n2") = none ∧
    SafeSSEDecoder.decodeLines
        [strBytes "data: 1", strBytes "data: 2", []] =
      [⟨none, [], Json.num (strBytes "12")⟩] := by
  exact ⟨rfl, rfl, by decide, rfl, rfl⟩

/-- C3 amended: `data:` lines append to the accumulator in arrival order
and never overwrite earlier values; at dispatch the payload handed to the
JSON parser is the direct concatenation (`joinArrays`) of the accumulated
values with no separator inserted between them. -/
theorem c3_amended :
    (∀ (vs : List (List Nat)) (s : SafeSSEDecoder.State),
      SafeSSEDecoder.run s (vs.map (fun v => strBytes "data: " ++ v)) =
        ({ s with data := s.data ++ vs }, [])) ∧
    (∀ vs : List (List Nat), vs ≠ [] →
      (SafeSSEDecoder.transform
          { SafeSSEDecoder.initState with data := vs } []).2 =
        match jsonParse (joinArrays vs) with
        | some j => [⟨none, [], j⟩]
        | none => []) := by
  constructor
  · intro vs
    induction vs with
    | nil => intro s; simp [SafeSSEDecoder.run]
    | cons v vs ih =>
      intro s
      simp [SafeSSEDecoder.run, SafeSSEDecoder.transform_data, ih,
        List.append_assoc]
  · intro vs hv
    have hg : ¬(SafeSSEDecoder.initState.event = [] ∧ vs = [] ∧
        SafeSSEDecoder.initState.lastEventId = [] ∧
        SafeSSEDecoder.initState.retry = none) := by
      intro h; exact hv h.2.1
    simp only [SafeSSEDecoder.transform, SafeSSEDecoder.dispatchEvent]
    rcases hj : jsonParse (joinArrays vs) with _ | j <;>
      simp [hg, hv, SafeSSEDecoder.initState, decodeArraysToJson, hj]

/-- C3 amended witness at concrete inputs. -/
theorem c3_amended_witness :
    SafeSSEDecoder.run SafeSSEDecoder.initState
        [strBytes "data: 1", strBytes "data: 2"] =
      ({ SafeSSEDecoder.initState with data := [strBytes "1", strBytes "2"] },
        []) ∧
    (SafeSSEDecoder.transform
        { SafeSSEDecoder.initState with
            data := [strBytes "1", strBytes "2"] } []).2 =
      [⟨none, [], Json.num (strBytes "12")⟩] := by
  constructor
  · exact c3_amended.1 [strBytes "1", strBytes "2"] SafeSSEDecoder.initState
  · have h := c3_amended.2 [strBytes "1", strBytes "2"] (by decide)
    rw [h]
    rfl

/-- C4: when the accumulated data does not parse as JSON, the blank-line
dispatch emits no event, raises nothing (the model is a total function),
and leaves the decoder in the ordinary post-dispatch state so that
subsequent lines are processed normally; concretely, the lines of
`event: foo` `data: not-json` (blank) yield zero events while a following
well-formed event still decodes. -/
theorem c4_bad_json_dropped :
    (∀ s : SafeSSEDecoder.State, s.data ≠ [] →
      jsonParse (joinArrays s.data) = none →
      SafeSSEDecoder.transform s [] =
        ({ event := [], data := [], lastEventId := s.lastEventId,
            retry := none }, [])) ∧
    SafeSSEDecoder.decodeLines
        [strBytes "event: foo", strBytes "data: not-json", [],
          strBytes "event: bar", strBytes "data: 1", []] =
      [⟨none, strBytes "bar", Json.num (strBytes "1")⟩] := by
  constructor
  · intro s hd hj
    have hg : ¬(s.event = [] ∧ s.data = [] ∧ s.lastEventId = [] ∧
        s.retry = none) := fun h => hd h.2.1
    simp [SafeSSEDecoder.transform, SafeSSEDecoder.dispatchEvent, hg, hd,
      decodeArraysToJson, hj]
  · rfl

/-- C4 witness at the concrete accumulator reached from
`event: foo` / `data: not-json`. -/
theorem c4_witness :
    SafeSSEDecoder.transform
        ⟨strBytes "foo", [strBytes "not-json"], [], none⟩ [] =
      ({ event := [], data := [], lastEventId := [], retry := none }, []) :=
  c4_bad_json_dropped.1 ⟨strBytes "foo", [strBytes "not-json"], [], none⟩
    (by decide) rfl

/-- C6: a blank-line dispatch always leaves the accumulator with `event`,
`data` and `retry` reset to their initial values and `lastEventId`
unchanged, so the last seen id persists as the default id of subsequent
events. -/
theorem c6_blank_reset (s : SafeSSEDecoder.State) :
    (SafeSSEDecoder.transform s []).1.event = [] ∧
    (SafeSSEDecoder.transform s []).1.data = [] ∧
    (SafeSSEDecoder.transform s []).1.retry = none ∧
    (SafeSSEDecoder.transform s []).1.lastEventId = s.lastEventId := by
  by_cases hg : s.event = [] ∧ s.data = [] ∧ s.lastEventId = [] ∧
      s.retry = none
  · simp [SafeSSEDecoder.transform, hg, hg.1, hg.2.1, hg.2.2.2]
  · simp [SafeSSEDecoder.transform, hg]

/-- C7 counterexample: a stream ending after `event: foo` / `data: not-json`
has an event type set, yet `flush` emits zero events (the JSON decode
fails), not exactly one. -/
theorem c7_counterexample :
    (SafeSSEDecoder.run SafeSSEDecoder.initState
        [strBytes "event: foo", strBytes "data: not-json"]).1.event =
      strBytes "foo" ∧
    strBytes "foo" ≠ [] ∧
    SafeSSEDecoder.flush
        (SafeSSEDecoder.run SafeSSEDecoder.initState
          [strBytes "event: foo", strBytes "data: not-json"]).1 = [] := by
  exact ⟨rfl, by decide, rfl⟩

/-- C7 amended: when an `event` type is set, `flush` emits exactly what the
blank-line dispatch path would emit for the same accumulator (one event
when the data is absent or parses, zero when the JSON parse fails); `flush`
emits nothing when no event type is set; and two events separated by one
blank line where the second has no trailing blank line yield two events
total after `flush`. -/
theorem c7_amended :
    (∀ s : SafeSSEDecoder.State, s.event ≠ [] →
      SafeSSEDecoder.flush s = (SafeSSEDecoder.transform s []).2) ∧
    (∀ s : SafeSSEDecoder.State, s.event = [] →
      SafeSSEDecoder.flush s = []) ∧
    SafeSSEDecoder.decodeLines
        [strBytes "event: a", strBytes "data: 1", [],
          strBytes "event: b", strBytes "data: 2"] =
      [⟨none, strBytes "a", Json.num (strBytes "1")⟩,
        ⟨none, strBytes "b", Json.num (strBytes "2")⟩] := by
  refine ⟨?_, ?_, rfl⟩
  · intro s he
    have hg : ¬(s.event = [] ∧ s.data = [] ∧ s.lastEventId = [] ∧
        s.retry = none) := fun h => he h.1
    simp [SafeSSEDecoder.flush, SafeSSEDecoder.transform, he, hg]
  · intro s he
    simp [SafeSSEDecoder.flush, he]

/-- C7 amended witness at concrete accumulators. -/
theorem c7_witness :
    SafeSSEDecoder.flush ⟨strBytes "foo", [], strBytes "x", none⟩ =
      (SafeSSEDecoder.transform
        ⟨strBytes "foo", [], strBytes "x", none⟩ []).2 ∧
    SafeSSEDecoder.flush ⟨[], [strBytes "1"], [], none⟩ = [] :=
  ⟨c7_amended.1 ⟨strBytes "foo", [], strBytes "x", none⟩ (by decide),
    c7_amended.2.1 ⟨[], [strBytes "1"], [], none⟩ rfl⟩

/-- C8: an `id:` field line whose raw value contains an embedded NUL byte
leaves the whole state (in particular `lastEventId`) unchanged, and an
event dispatched afterwards carries the prior id; an `id:` line without a
NUL byte overwrites `lastEventId`. -/
theorem c8_id_nul (s : SafeSSEDecoder.State) (v : List Nat) :
    (NULL ∈ v →
      SafeSSEDecoder.transform s (strBytes "id: " ++ v) = (s, [])) ∧
    (NULL ∉ v →
      SafeSSEDecoder.transform s (strBytes "id: " ++ v) =
        ({ s with lastEventId := v }, [])) ∧
    (NULL ∈ v →
      ∀ e ∈ (SafeSSEDecoder.transform
          (SafeSSEDecoder.transform s (strBytes "id: " ++ v)).1 []).2,
        e.id = if s.lastEventId = [] then none else some s.lastEventId) := by
  refine ⟨?_, ?_, ?_⟩
  · intro h
    rw [SafeSSEDecoder.transform_id s v, if_pos h]
  · intro h
    rw [SafeSSEDecoder.transform_id s v, if_neg h]
  · intro h e he
    rw [SafeSSEDecoder.transform_id s v, if_pos h] at he
    by_cases hg : s.event = [] ∧ s.data = [] ∧ s.lastEventId = [] ∧
        s.retry = none
    · simp [SafeSSEDecoder.transform, hg] at he
    · simp only [SafeSSEDecoder.transform, if_pos rfl, if_neg hg] at he
      unfold SafeSSEDecoder.dispatchEvent at he
      rcases hj : (if s.data ≠ [] then decodeArraysToJson s.data
          else some Json.null) with _ | j
      · rw [hj] at he
        simp at he
      · rw [hj] at he
        simp at he
        rw [he]

/-- C8 witness: a NUL-carrying id is ignored, a clean id overwrites. -/
theorem c8_witness :
    SafeSSEDecoder.transform ⟨[], [], strBytes "old", none⟩
        (strBytes "id: " ++ [97, NULL]) =
      (⟨[], [], strBytes "old", none⟩, []) ∧
    SafeSSEDecoder.transform ⟨[], [], strBytes "old", none⟩
        (strBytes "id: " ++ strBytes "new") =
      ({ event := [], data := [], lastEventId := strBytes "new",
          retry := none }, []) :=
  ⟨(c8_id_nul ⟨[], [], strBytes "old", none⟩ [97, NULL]).1 (by decide),
    (c8_id_nul ⟨[], [], strBytes "old", none⟩ (strBytes "new")).2.1
      (by decide)⟩

/-- C10: a blank-line dispatch whose accumulated data fails to parse as
JSON resets the accumulator exactly as any dispatching accumulator with the
same `lastEventId` would be reset (with `lastEventId` retained), so a
dropped malformed event leaks none of its fields into the next event. -/
theorem c10_bad_json_reset (s t : SafeSSEDecoder.State) (hd : s.data ≠ [])
    (hj : jsonParse (joinArrays s.data) = none)
    (ht : ¬(t.event = [] ∧ t.data = [] ∧ t.lastEventId = [] ∧
      t.retry = none))
    (hid : s.lastEventId = t.lastEventId) :
    (SafeSSEDecoder.transform s []).1 = (SafeSSEDecoder.transform t []).1 := by
  have hg : ¬(s.event = [] ∧ s.data = [] ∧ s.lastEventId = [] ∧
      s.retry = none) := fun h => hd h.2.1
  simp [SafeSSEDecoder.transform, hg, ht]
  rw [hid]

/-- C10 witness: the malformed dispatch and a successful dispatch land in
the same state. -/
theorem c10_witness :
    (SafeSSEDecoder.transform
      ⟨strBytes "foo", [strBytes "not-json"], strBytes "k", some 7⟩ []).1 =
    (SafeSSEDecoder.transform
      ⟨strBytes "bar", [strBytes "1"], strBytes "k", none⟩ []).1 :=
  c10_bad_json_reset
    ⟨strBytes "foo", [strBytes "not-json"], strBytes "k", some 7⟩
    ⟨strBytes "bar", [strBytes "1"], strBytes "k", none⟩
    (by decide) rfl (by decide) rfl

/-- C5: for a response whose location-style header is
`/threads/abc/runs/xyz` the driver invokes `onRunCreated` exactly once with
`run_id = "xyz"` and `thread_id = "abc"`, before the first decoded event is
yielded; for `/runs/xyz` the `run_id` is `"xyz"` and the `thread_id` is
absent; when the header is missing or does not match the pattern,
`onRunCreated` is not invoked. -/
theorem c5_run_metadata :
    (∀ chunks : List (List Nat),
      streamTrace (some (strChars "/threads/abc/runs/xyz")) chunks =
        StreamItem.runCreated ⟨strChars "xyz", some (strChars "abc")⟩ ::
          (pipelineEvents chunks).map StreamItem.event) ∧
    (∀ chunks : List (List Nat),
      streamTrace (some (strChars "/runs/xyz")) chunks =
        StreamItem.runCreated ⟨strChars "xyz", none⟩ ::
          (pipelineEvents chunks).map StreamItem.event) ∧
    (∀ chunks : List (List Nat),
      streamTrace none chunks =
        (pipelineEvents chunks).map StreamItem.event) ∧
    (∀ (h : Option (List Char)) (chunks : List (List Nat)),
      getRunMetadataFromResponse h = none →
      streamTrace h chunks = (pipelineEvents chunks).map StreamItem.event) := by
  refine ⟨?_, ?_, ?_, ?_⟩
  · intro chunks
    rfl
  · intro chunks
    rfl
  · intro chunks
    rfl
  · intro h chunks hnone
    simp [streamTrace, hnone]

/-- C5 witness: the trace for the two concrete headers over an empty body,
and a non-matching header yielding no `onRunCreated` invocation. -/
theorem c5_witness :
    streamTrace (some (strChars "/threads/abc/runs/xyz")) [] =
      [StreamItem.runCreated ⟨strChars "xyz", some (strChars "abc")⟩] ∧
    streamTrace (some (strChars "nope")) [] = [] := by
  constructor
  · have h := c5_run_metadata.1 []
    rw [show (pipelineEvents []).map StreamItem.event = [] from rfl] at h
    exact h
  · have h := c5_run_metadata.2.2.2 (some (strChars "nope")) [] rfl
    rw [show (pipelineEvents []).map StreamItem.event = [] from rfl] at h
    exact h
